import Mathlib

/-!
Verification of `bitrix24-python-sdk` (`src/bitrix24/bitrix24.py`).

The file gives a shallow embedding of the `Bitrix24` client class: Python
dicts become association lists over string keys, JSON-compatible values
become the inductive `Value`, exceptions become `Except`/explicit error
results, and the two external collaborators (the HTTP transport and the
`multidimensional_urlencode` library) become oracles / function parameters,
exactly as the repository's own boundary draws them.
-/

namespace Bitrix24

/-- JSON-compatible Python values as they flow through the client:
strings, ints, booleans, lists and (insertion-ordered) dicts. -/
inductive Value where
  | str (s : String)
  | int (n : Int)
  | bool (b : Bool)
  | list (xs : List Value)
  | dict (entries : List (String × Value))

/-- A Python dict with string keys, as an insertion-ordered association
list.  A real Python dict never has duplicate keys; theorems that need
this carry a `Nodup` hypothesis on the key list. -/
abbrev Dict := List (String × Value)

/-- Python `d[k]` / `d.get(k)`: first binding of `k`, if any. -/
def lookup : Dict → String → Option Value
  | [], _ => none
  | (k, v) :: rest, key => if k = key then some v else lookup rest key

/-- Python `d[k] = v`: replace the first binding of `k` in place, else
append a fresh binding at the end (dict insertion order). -/
def dictSet : Dict → String → Value → Dict
  | [], key, v => [(key, v)]
  | (k, w) :: rest, key, v =>
    if k = key then (key, v) :: rest else (k, w) :: dictSet rest key v

/-- The key list of a dict, in insertion order (Python `d.keys()`). -/
def keys (d : Dict) : List String := d.map Prod.fst

/-- Executable lexicographic comparison of char lists. -/
def listLeb : List Char → List Char → Bool
  | [], _ => true
  | _ :: _, [] => false
  | a :: as, b :: bs => if a < b then true else if b < a then false else listLeb as bs

theorem listLeb_iff : ∀ (as bs : List Char), listLeb as bs = true ↔ ¬ bs < as
  | [], bs => by
    simp only [listLeb, true_iff]
    intro h
    cases h
  | a :: as, [] => by
    simp only [listLeb]
    exact iff_of_false (by simp) (fun h => h List.Lex.nil)
  | a :: as, b :: bs => by
    by_cases hab : a < b
    · have hba : ¬ b < a := lt_asymm hab
      simp only [listLeb, if_pos hab, true_iff]
      intro h
      cases h with
      | cons h3 => exact absurd hab (lt_irrefl _)
      | rel h' => exact hba h'
    · by_cases hba : b < a
      · simp only [listLeb, if_neg hab, if_pos hba]
        exact iff_of_false (by simp) (fun h => h (List.Lex.rel hba))
      · have heq : b = a := le_antisymm (not_lt.mp hab) (not_lt.mp hba)
        subst heq
        simp only [listLeb, if_neg hab, if_neg hba]
        rw [listLeb_iff as bs]
        constructor
        · intro h hlt
          cases hlt with
          | cons h3 => exact h h3
          | rel h' => exact hba h'
        · intro h hlt
          exact h (List.Lex.cons hlt)

/-- An executable decision procedure for `String ≤` (the instance
Mathlib registers is built by tactic and does not reduce in the kernel,
which would block evaluation of `sorted(...)` on concrete data). -/
def strLeDec : DecidableRel (α := String) (· ≤ ·) := fun a b =>
  decidable_of_iff (listLeb a.data b.data = true)
    (by
      rw [listLeb_iff]
      show ¬ b.data < a.data ↔ a ≤ b
      rw [String.le_iff_toList_le]
      exact not_lt)

/-- Python `sorted(d.keys())`: the keys in ascending order. -/
def sortedKeys (d : Dict) : List String :=
  @List.insertionSort String (· ≤ ·) strLeDec (keys d)

/-- Left-biased choice on options (first defined value wins). -/
def ore : Option Value → Option Value → Option Value
  | some v, _ => some v
  | none, b => b

/-- Python `z.update(y)`: set every binding of `y` into `z`, in `y`'s
order, later bindings overwriting earlier ones. -/
def dictUpdate (z y : Dict) : Dict := y.foldl (fun acc p => dictSet acc p.1 p.2) z

/-- Source `Bitrix24.merge_two_dicts(x, y)`: `z = x.copy(); z.update(y);
return z` — a shallow merge in which `y`'s value wins on key collision. -/
def merge_two_dicts (x y : Dict) : Dict := dictUpdate x y

/-! ### prepare_batch and encode_cmd -/

/-- Python exceptions raised by the client, by kind. -/
inductive PyErr where
  | exn (msg : String)
  | valueError (msg : String)
  | keyError (k : String)
  | typeError
  | indexError

/-- The inner loop of `prepare_batch`: `temp += urlencode(i) + '&'` over
the remaining parameter mappings of one sub-call, in list order.  The
`urlencode` of the external `multidimensional_urlencode` library is the
parameter `enc`. -/
def encParams (enc : Value → String) : List Value → String
  | [] => ""
  | v :: vs => enc v ++ "&" ++ encParams enc vs

/-- One iteration body of `prepare_batch`'s loop on `params[call_id]`:
reject a non-list (`Invalid 'cmd' method description`), `pop(0)` the
method name (IndexError on an empty list), reject method `batch`, reject
a non-string method (`method + '?'` raises TypeError), else return the
recorded string `method + '?' + temp` and the popped (mutated) list. -/
def prepEntry (enc : Value → String) : Value → Except PyErr (String × Value)
  | .list [] => .error .indexError
  | .list (m :: rest) =>
    match m with
    | .str ms =>
      if ms = "batch" then .error (.exn "Batch call cannot contain batch methods")
      else .ok (ms ++ "?" ++ encParams enc rest, .list rest)
    | _ => .error .typeError
  | _ => .error (.exn "Invalid \x27cmd\x27 method description")

/-- The loop of `prepare_batch` over the sorted request ids.  `cur` is
the caller's `params` dict, mutated in place by `pop(0)`; `acc` is the
`batched_params` being built.  Returns `(batched_params, mutated params)`. -/
def prepGo (enc : Value → String) : List String → Dict → Dict → Except PyErr (Dict × Dict)
  | [], cur, acc => .ok (acc, cur)
  | k :: ks, cur, acc =>
    match lookup cur k with
    | none => .error (.keyError k)
    | some v =>
      match prepEntry enc v with
      | .error e => .error e
      | .ok (s, v') => prepGo enc ks (dictSet cur k v') (dictSet acc k (.str s))

/-- Source `Bitrix24.prepare_batch(params)`: reject a non-dict
(`Invalid 'cmd' structure`), then process every request id in ascending
sorted order. -/
def prepare_batch (enc : Value → String) (params : Value) : Except PyErr (Dict × Dict) :=
  match params with
  | .dict d => prepGo enc (sortedKeys d) d []
  | _ => .error (.exn "Invalid \x27cmd\x27 structure")

/-- The recursion of `encode_cmd` over the sorted ids:
`cmd_encoded += urlencode({'cmd': {i: cmd[i]}}) + '&'`. -/
def encodeCmdGo (enc : Value → String) (cmd : Dict) : List String → String
  | [] => ""
  | i :: is =>
    enc (.dict [("cmd", .dict [(i, (lookup cmd i).getD (.str ""))])]) ++ "&" ++
      encodeCmdGo enc cmd is

/-- Source `Bitrix24.encode_cmd(cmd)`: re-serialize a prepared command
mapping by iterating its keys in ascending sorted order. -/
def encode_cmd (enc : Value → String) (cmd : Dict) : String :=
  encodeCmdGo enc cmd (sortedKeys cmd)

/-- Source `call`, lines 68-69: `if method == '' or not isinstance(method, str):
raise Exception('Empty Method')`. -/
def call_method_check (method : Value) : Except PyErr Unit :=
  match method with
  | .str s => if s = "" then .error (.exn "Empty Method") else .ok ()
  | _ => .error (.exn "Empty Method")

/-- Source `call`, lines 71-73: for method `batch` with no `prepared`
marker yet, replace `params1['cmd']` with the prepared mapping and set
`params1['prepared'] = True`, mutating the caller's parameter group. -/
def call_prepare_step (enc : Value → String) (method : Value) (params1 : Dict) :
    Except PyErr Dict :=
  match method with
  | .str ms =>
    if ms = "batch" then
      if (lookup params1 "prepared").isNone then
        match lookup params1 "cmd" with
        | none => .error (.keyError "cmd")
        | some cmdv =>
          match prepare_batch enc cmdv with
          | .ok (res, _) =>
            .ok (dictSet (dictSet params1 "cmd" (.dict res)) "prepared" (.bool true))
          | .error e => .error e
      else .ok params1
    else .ok params1
  | _ => .ok params1

/-! ### The call response loop -/

/-- One HTTP round-trip outcome as `call` observes it (lines 87-103):
the decoded JSON body, a JSON-decode `ValueError`, a `ReadTimeout`, a
`ConnectionError`, or an `AuthenticationFailed`/`TokenRenewFailed`
carrying the structured `e.result`. -/
inductive Resp where
  | ok (v : Value)
  | jsonErr (text : String)
  | readTimeout
  | connErr
  | authFail (result : Value)

/-- Observable side effects of one `call` activation: the HTTP POST
itself, a `refresh_tokens()` call, and the 2-second `time.sleep(2)`. -/
inductive Action where
  | post
  | refresh
  | sleep2
deriving DecidableEq

/-- How a `call` invocation ends in the model. -/
inductive CallOutcome where
  | value (v : Value)
  | raised (e : PyErr)
  | outOfResponses

/-- The tuple of line 106: `('invalid_token', 'NO_AUTH_FOUND', 'expired_token')`. -/
def tokenCodes : List String := ["invalid_token", "NO_AUTH_FOUND", "expired_token"]

/-- Is `a` a leading piece of `b`? -/
def listPre : List Char → List Char → Bool
  | [], _ => true
  | _ :: _, [] => false
  | a :: as, b :: bs => a = b && listPre as bs

/-- Python `a in b` on strings: `a` occurs contiguously inside `b`
(the empty string occurs in every string). -/
def listSub (a : List Char) : List Char → Bool
  | [] => listPre a []
  | b :: bs => listPre a (b :: bs) || listSub a bs

/-- Whether a Python value equals the string `'error'`. -/
def isErrorStr : Value → Bool
  | .str s => s = "error"
  | _ => false

/-- Source `call` lines 87-116, for a fixed method/parameter tuple: each
recursive re-issue sends the same request, consuming the next scripted
HTTP outcome from the oracle list.  Per the except handlers: a JSON
decode error, a timeout or a connection error returns an `error`-keyed
dict with no retry; an authentication / token-renewal failure inspects
`result['error']` — a code in the token tuple refreshes then re-calls, a
code contained in `'QUERY_LIMIT_EXCEEDED'` (line 108: `elif error_code in
'QUERY_LIMIT_EXCEEDED'`, Python's substring test) sleeps 2 s then
re-calls, any other string code re-calls with no recovery action, and a
non-string code raises TypeError at the substring test; a failure result
with no `'error'` key is returned as is (so is a non-dict result not
containing `'error'`). -/
def callDispatch (timeout : Nat) : List Resp → List Action × CallOutcome
  | [] => ([], .outOfResponses)
  | r :: rest =>
    match r with
    | .ok v => ([.post], .value v)
    | .jsonErr text =>
      ([.post],
       .value (.dict [("error", .str ("Error on decode api response [" ++ text ++ "]"))]))
    | .readTimeout =>
      ([.post],
       .value (.dict [("error", .str ("Timeout waiting expired [" ++ toString timeout ++ " sec]"))]))
    | .connErr => ([.post], .value (.dict [("error", .str "Max retries exceeded [1]")]))
    | .authFail eres =>
      match eres with
      | .dict d =>
        match lookup d "error" with
        | none => ([.post], .value (.dict d))
        | some (.str code) =>
          if code ∈ tokenCodes then
            let rec1 := callDispatch timeout rest
            (.post :: .refresh :: rec1.1, rec1.2)
          else if listSub code.data "QUERY_LIMIT_EXCEEDED".data then
            let rec1 := callDispatch timeout rest
            (.post :: .sleep2 :: rec1.1, rec1.2)
          else
            let rec1 := callDispatch timeout rest
            (.post :: rec1.1, rec1.2)
        | some _ => ([.post], .raised .typeError)
      | .str s =>
        if listSub "error".data s.data then ([.post], .raised .typeError)
        else ([.post], .value (.str s))
      | .list xs =>
        if xs.any isErrorStr then ([.post], .raised .typeError)
        else ([.post], .value (.list xs))
      | _ => ([.post], .raised .typeError)

/-! ### batch -/

/-- Python `len()` on a JSON value (TypeError on numbers / booleans). -/
def pyLen : Value → Except PyErr Nat
  | .dict d => .ok d.length
  | .list l => .ok l.length
  | .str s => .ok s.length
  | _ => .error .typeError

/-- Source `batch` lines 244-246: for each id `i` of the flushed chunk's
response container `temp['result']`, when `len(temp['result'][i]) > 0`,
set `result['result'][i] = merge_two_dicts(temp['result'][i],
result['result'][i])` — the fresh chunk is the `x` argument and the
cumulative container the `y` argument of `merge_two_dicts`.  Non-dict
operands of the merge raise in Python and are TypeError here. -/
def batchMergeLoop (cumulative : Dict) : List (String × Value) → Except PyErr Dict
  | [] => .ok cumulative
  | (i, vi) :: rest =>
    match pyLen vi with
    | .error e => .error e
    | .ok n =>
      if n > 0 then
        match lookup cumulative i with
        | none => .error (.keyError i)
        | some cv =>
          match vi, cv with
          | .dict x, .dict y =>
            batchMergeLoop (dictSet cumulative i (.dict (merge_two_dicts x y))) rest
          | _, _ => .error .typeError
      else batchMergeLoop cumulative rest

/-- A command value `prepare_batch` accepts without raising: a nonempty
list headed by a method-name string other than `batch`. -/
def wfCmd (v : Value) : Prop :=
  ∃ m ps, v = .list (.str m :: ps) ∧ m ≠ "batch"

/-- The body of `for i in temp['result']` when the container is a Python
LIST: each element `i` subscripts the list itself (`temp['result'][i]`),
a TypeError unless `i` is an int (or bool, an int subclass); an in-range
subscript (negative indices count from the end, out of range IndexError)
yields an element whose `len(...)` is tested (TypeError on a number);
a positive length reaches `result['result'][i]`, an integer subscript on
the string-keyed cumulative dict — KeyError; a zero length skips to the
next element.  An empty list runs zero iterations and succeeds. -/
def listContainerLoop (acc : Dict) (full : List Value) : List Value → Except PyErr Dict
  | [] => .ok acc
  | e :: rest =>
    match (match e with
           | .int n => .ok n
           | .bool b => .ok (if b then (1 : Int) else 0)
           | _ => .error PyErr.typeError : Except PyErr Int) with
    | .error er => .error er
    | .ok n =>
      let m : Int := if n < 0 then n + full.length else n
      if h : 0 ≤ m ∧ m.toNat < full.length then
        match pyLen (full.get ⟨m.toNat, h.2⟩) with
        | .error er => .error er
        | .ok len =>
          if len > 0 then .error (.keyError (toString n))
          else listContainerLoop acc full rest
      else .error .indexError

/-- One flush of `batch` (lines 244-246): iterate the response's
`'result'` container (`temp['result']`, KeyError when the key is
missing, TypeError when the response is not a dict) and merge into the
cumulative `acc`.  A dict container runs `batchMergeLoop`; a list
container runs `listContainerLoop`; an empty string runs zero iterations
and succeeds; a nonempty string iterates characters and fails at the
string subscript `temp['result'][i]` (TypeError); a number is not
iterable (TypeError). -/
def flushChunk (resp : Value) (acc : Dict) : Except PyErr Dict :=
  match resp with
  | .dict td =>
    match lookup td "result" with
    | some (.dict tr) => batchMergeLoop acc tr
    | some (.list l) => listContainerLoop acc l l
    | some (.str s) => if s = "" then .ok acc else .error .typeError
    | some _ => .error .typeError
    | none => .error (.keyError "result")
  | _ => .error .typeError

/-- The chunking loop of `batch` (lines 237-248): walk the sorted request
ids, accumulate a chunk dict, and when the chunk holds 49 entries or the
walk reaches id number `total`, flush it through
`self.call('batch', {'halt': ..., 'cmd': chunk})` (line 243).  Each such
`call` first runs its prepare step on the fresh parameter group (lines
71-73): `prepare_batch` validates every chunk value and raises — before
any HTTP traffic — on a non-list value, an empty list, a non-string or
`batch` method name; that exception propagates out of `batch`.  On
successful preparation the HTTP round-trip happens and the oracle
supplies the decoded response for flush index `fi`, folded into the
cumulative per-id containers `acc`.  (The prepare step also beheads the
chunk's lists in place; `batch` never reads a flushed id's value again,
so only the validation is observable here.  The encoded body built from
the prepared mapping feeds the excluded HTTP transport.)  The first
component is the list of flushed chunks, one per underlying `call`
invocation — including an invocation whose prepare step raises — in
order, kept even when a later flush aborts the loop. -/
def batchLoop (enc : Value → String) (oracle : Nat → Value) (cmd : Dict) (total : Nat) :
    List String → Nat → Dict → Nat → Dict → List Dict × Except PyErr Dict
  | [], _, _, _, acc => ([], .ok acc)
  | k :: ks, count, chunk, fi, acc =>
    let chunk' := dictSet chunk k ((lookup cmd k).getD (.int 0))
    if chunk'.length = 49 ∨ count + 1 = total then
      match prepare_batch enc (.dict chunk') with
      | .error e => ([chunk'], .error e)
      | .ok _ =>
        match flushChunk (oracle fi) acc with
        | .ok acc' =>
          let rest := batchLoop enc oracle cmd total ks (count + 1) [] (fi + 1) acc'
          (chunk' :: rest.1, rest.2)
        | .error e => ([chunk'], .error e)
    else batchLoop enc oracle cmd total ks (count + 1) chunk' fi acc

/-- Source `Bitrix24.batch(params)`: when `halt` or `cmd` is missing it
RETURNS `{'error': 'Invalid batch structure'}` (it does not raise);
otherwise it chunks the sorted command ids by 49, flushes each chunk
through `call('batch', ...)` — prepare step included, see `batchLoop` —
merges the responses, and wraps the cumulative containers as
`{'result': ...}`.  The cumulative container starts as the dict literal
of lines 231-236.  The first component is the trace of flushed chunks,
one per underlying `call('batch', ...)` invocation. -/
def batch (enc : Value → String) (oracle : Nat → Value) (params : Value) :
    List Dict × Except PyErr Value :=
  match params with
  | .dict d =>
    if (lookup d "halt").isNone ∨ (lookup d "cmd").isNone then
      ([], .ok (.dict [("error", .str "Invalid batch structure")]))
    else
      match lookup d "cmd" with
      | some (.dict cmd) =>
        let init : Dict :=
          [("result_error", .dict []), ("result_total", .dict []),
           ("result", .dict []), ("result_next", .dict [])]
        let run := batchLoop enc oracle cmd cmd.length (sortedKeys cmd) 0 [] 0 init
        (run.1, run.2.map (fun acc => .dict [("result", .dict acc)]))
      | some _ => ([], .error .typeError)
      | none => ([], .error (.keyError "cmd"))
  | _ => ([], .error .typeError)

/-- The flush sizes of the chunking loop as a pure function of counts:
`total` ids overall, the first argument the ids still to walk, then the
ids already walked and the entries in the open chunk. -/
def sizesGo (total : Nat) : Nat → Nat → Nat → List Nat
  | 0, _, _ => []
  | r + 1, count, csize =>
    if csize + 1 = 49 ∨ count + 1 = total then
      (csize + 1) :: sizesGo total r (count + 1) 0
    else sizesGo total r (count + 1) (csize + 1)

/-! ### Client construction -/

/-- The credential/configuration state stored on a `Bitrix24` instance. -/
structure Client where
  domain : String
  access_token : Option String
  refresh_token : Option String
  client_id : String
  client_secret : String
  code : Option String
  oauth_url : String

/-- Python truthiness of an optional string: `None` and `''` are falsy. -/
def pyFalsyStrOpt : Option String → Bool
  | none => true
  | some s => s = ""

/-- Source `Bitrix24.__init__` (lines 28-49): store the fields, override
the OAuth endpoint when a custom one is given, and raise `ValueError`
when access token, refresh token and authorization code are all falsy
(`(not self.access_token and not self.refresh_token) and not self.code`). -/
def bitrix24_init (domain : String) (access_token refresh_token : Option String)
    (client_id client_secret : String) (code : Option String)
    (custom_oauth_url : Option String) : Except PyErr Client :=
  if pyFalsyStrOpt access_token && pyFalsyStrOpt refresh_token && pyFalsyStrOpt code then
    .error (.valueError "You should pass auth_token or auth code.")
  else
    .ok { domain := domain, access_token := access_token, refresh_token := refresh_token,
          client_id := client_id, client_secret := client_secret, code := code,
          oauth_url := custom_oauth_url.getD "https://oauth.bitrix.info/oauth/token/" }

/-! ### Concrete sample data for witnesses and counterexamples -/

/-- A concrete stand-in for the external `urlencode` library (the claims
hold for every encoder; witnesses instantiate this one). -/
def encSample : Value → String := fun _ => "E"

/-- The spec's own `prepare_batch` example input. -/
def dDemo : Dict :=
  [("a", .list [.str "user.get", .dict [("ID", .int 1)]]),
   ("b", .list [.str "user.get", .dict [("ID", .int 2)]])]

/-- `n` distinct one-character request ids starting at `'A'`. -/
def demoIds (n : Nat) : List String :=
  (List.range n).map (fun i => String.mk [Char.ofNat (65 + i)])

/-- A command mapping with `n` distinct request ids, each a valid
sub-call `["user.get"]` (prepare_batch accepts it). -/
def demoCmd (n : Nat) : Dict :=
  (demoIds n).map (fun k => (k, Value.list [Value.str "user.get"]))

/-- A well-formed batch parameter dict over `demoCmd n`. -/
def demoParams (n : Nat) : Value :=
  .dict [("halt", .int 0), ("cmd", .dict (demoCmd n))]

/-- A benign response oracle: every flush returns `{'result': {}}`. -/
def emptyOracle : Nat → Value := fun _ => .dict [("result", .dict [])]

/-- A response oracle whose flushes answer with the same per-id key `X`:
the first flush carries `v1`, every later one `v2`. -/
def collideOracle : Nat → Value := fun i =>
  if i = 0 then .dict [("result", .dict [("result", .dict [("X", .str "v1")])])]
  else .dict [("result", .dict [("result", .dict [("X", .str "v2")])])]

/-! ## Lemmas and theorems -/

/-! ### Basic dictionary lemmas -/

theorem lookup_dictSet (d : Dict) (a k : String) (v : Value) :
    lookup (dictSet d a v) k = if a = k then some v else lookup d k := by
  induction d with
  | nil =>
    by_cases h : a = k <;> simp [dictSet, lookup, h]
  | cons p rest ih =>
    obtain ⟨b, w⟩ := p
    by_cases hba : b = a
    · subst hba
      by_cases hk : b = k <;> simp [dictSet, lookup, hk]
    · by_cases hbk : b = k
      · subst hbk
        have hak : ¬ a = b := fun h => hba h.symm
        simp [dictSet, lookup, hba, hak]
      · simp [dictSet, lookup, hba, hbk, ih]

theorem lookup_isSome_iff_mem_keys (d : Dict) (k : String) :
    (lookup d k).isSome = true ↔ k ∈ keys d := by
  induction d with
  | nil => simp [lookup, keys]
  | cons p rest ih =>
    obtain ⟨b, w⟩ := p
    by_cases h : b = k
    · subst h; simp [lookup, keys]
    · have hk : ¬ k = b := fun hh => h hh.symm
      simp only [lookup, if_neg h, keys, List.map_cons, List.mem_cons]
      rw [show Bitrix24.keys rest = rest.map Prod.fst from rfl] at ih
      rw [ih]
      constructor
      · intro hm; exact Or.inr hm
      · rintro (hkb | hm)
        · exact absurd hkb hk
        · exact hm

theorem lookup_eq_none_iff_not_mem_keys (d : Dict) (k : String) :
    lookup d k = none ↔ k ∉ keys d := by
  rw [← lookup_isSome_iff_mem_keys]
  cases h : lookup d k <;> simp [h]

theorem keys_dictSet_of_not_mem (d : Dict) (a : String) (v : Value)
    (h : a ∉ keys d) : keys (dictSet d a v) = keys d ++ [a] := by
  induction d with
  | nil => simp [dictSet, keys]
  | cons p rest ih =>
    obtain ⟨b, w⟩ := p
    have hb : ¬ b = a := by
      intro hba; exact h (by simp [keys, hba])
    have hrest : a ∉ keys rest := by
      intro hm; exact h (by simp [keys] at hm ⊢; exact Or.inr hm)
    simp [dictSet, keys, hb] at *
    exact ih hrest

theorem length_dictSet_of_not_mem (d : Dict) (a : String) (v : Value)
    (h : a ∉ keys d) : (dictSet d a v).length = d.length + 1 := by
  have := keys_dictSet_of_not_mem d a v h
  have h1 : (keys (dictSet d a v)).length = (keys d ++ [a]).length := by rw [this]
  simpa [keys] using h1

theorem length_dictSet_le (d : Dict) (a : String) (v : Value) :
    (dictSet d a v).length ≤ d.length + 1 := by
  induction d with
  | nil => simp [dictSet]
  | cons p rest ih =>
    obtain ⟨b, w⟩ := p
    by_cases h : b = a <;> simp [dictSet, h] <;> omega

theorem lookup_append (d1 d2 : Dict) (k : String) :
    lookup (d1 ++ d2) k = ore (lookup d1 k) (lookup d2 k) := by
  induction d1 with
  | nil => simp [lookup, ore]
  | cons p rest ih =>
    obtain ⟨b, w⟩ := p
    by_cases h : b = k <;> simp [lookup, ore, h, ih]

theorem ore_assoc (a b c : Option Value) : ore (ore a b) c = ore a (ore b c) := by
  cases a <;> cases b <;> simp [ore]

theorem ore_none_right (a : Option Value) : ore a none = a := by
  cases a <;> simp [ore]

theorem lookup_dictUpdate (y : Dict) (z : Dict) (k : String) :
    lookup (dictUpdate z y) k = ore (lookup y.reverse k) (lookup z k) := by
  induction y generalizing z with
  | nil => simp [dictUpdate, lookup, ore]
  | cons p y' ih =>
    obtain ⟨a, b⟩ := p
    have hstep : dictUpdate z ((a, b) :: y') = dictUpdate (dictSet z a b) y' := rfl
    rw [hstep, ih]
    have hrev : ((a, b) :: y').reverse = y'.reverse ++ [(a, b)] := by simp
    rw [hrev, lookup_append, ore_assoc]
    congr 1
    by_cases h : a = k <;> simp [lookup_dictSet, lookup, h, ore] <;>
      cases lookup z k <;> simp [ore]

theorem lookup_reverse_of_nodup (y : Dict) (hnd : (keys y).Nodup) (k : String) :
    lookup y.reverse k = lookup y k := by
  induction y with
  | nil => simp
  | cons p y' ih =>
    obtain ⟨a, b⟩ := p
    have hcons : keys ((a, b) :: y') = a :: keys y' := rfl
    rw [hcons] at hnd
    have hna : a ∉ keys y' := (List.nodup_cons.mp hnd).1
    have hnd' : (keys y').Nodup := (List.nodup_cons.mp hnd).2
    have hrev : ((a, b) :: y').reverse = y'.reverse ++ [(a, b)] := by simp
    rw [hrev, lookup_append, ih hnd']
    by_cases h : a = k
    · subst h
      have : lookup y' a = none := (lookup_eq_none_iff_not_mem_keys y' a).mpr hna
      simp [this, lookup, ore]
    · simp [lookup, h, ore_none_right]

/-- On a key bound in `y` (with honest, duplicate-free keys, as every
Python dict has), `merge_two_dicts x y` keeps `y`'s value. -/
theorem lookup_merge_of_mem_right (x y : Dict) (hnd : (keys y).Nodup)
    (k : String) (v : Value) (h : lookup y k = some v) :
    lookup (merge_two_dicts x y) k = some v := by
  rw [merge_two_dicts, lookup_dictUpdate, lookup_reverse_of_nodup y hnd, h]
  rfl

/-- On a key absent from `y`, `merge_two_dicts x y` falls back to `x`. -/
theorem lookup_merge_of_not_mem_right (x y : Dict) (hnd : (keys y).Nodup)
    (k : String) (h : lookup y k = none) :
    lookup (merge_two_dicts x y) k = lookup x k := by
  rw [merge_two_dicts, lookup_dictUpdate, lookup_reverse_of_nodup y hnd, h]
  rfl

/-! ### prepare_batch lemmas -/

theorem prepEntry_ok_shape (enc : Value → String) (v : Value) (s : String) (v' : Value)
    (h : prepEntry enc v = .ok (s, v')) :
    ∃ m ps, v = .list (.str m :: ps) ∧ m ≠ "batch" ∧
      s = m ++ "?" ++ encParams enc ps ∧ v' = .list ps := by
  match v with
  | .str _ | .int _ | .bool _ | .dict _ => simp [prepEntry] at h
  | .list [] => simp [prepEntry] at h
  | .list (m :: rest) =>
    match m with
    | .int _ | .bool _ | .list _ | .dict _ => simp [prepEntry] at h
    | .str ms =>
      by_cases hb : ms = "batch"
      · simp [prepEntry, hb] at h
      · simp only [prepEntry, if_neg hb, Except.ok.injEq, Prod.mk.injEq] at h
        exact ⟨ms, rest, rfl, hb, h.1.symm, h.2.symm⟩

theorem prepEntry_ok_of_shape (enc : Value → String) (m : String) (ps : List Value)
    (hm : m ≠ "batch") :
    prepEntry enc (.list (.str m :: ps)) = .ok (m ++ "?" ++ encParams enc ps, .list ps) := by
  simp [prepEntry, hm]

theorem prepGo_frame (enc : Value → String) :
    ∀ (ks : List String) (cur acc res cur' : Dict),
      prepGo enc ks cur acc = .ok (res, cur') →
      ∀ k, k ∉ ks → lookup res k = lookup acc k ∧ lookup cur' k = lookup cur k := by
  intro ks
  induction ks with
  | nil =>
    intro cur acc res cur' h k _
    simp only [prepGo, Except.ok.injEq, Prod.mk.injEq] at h
    rw [← h.1, ← h.2]
    exact ⟨rfl, rfl⟩
  | cons hd tl ih =>
    intro cur acc res cur' h k hk
    have hkhd : ¬ hd = k := fun he => hk (he ▸ List.mem_cons_self hd tl)
    have hktl : k ∉ tl := fun hm => hk (List.mem_cons_of_mem hd hm)
    rw [prepGo] at h
    cases hlook : lookup cur hd with
    | none => rw [hlook] at h; cases h
    | some v =>
      rw [hlook] at h
      dsimp only at h
      cases hpe : prepEntry enc v with
      | error e => rw [hpe] at h; cases h
      | ok p =>
        obtain ⟨s, v'⟩ := p
        rw [hpe] at h
        dsimp only at h
        have := ih (dictSet cur hd v') (dictSet acc hd (.str s)) res cur' h k hktl
        rw [lookup_dictSet, if_neg hkhd] at this
        rw [lookup_dictSet, if_neg hkhd] at this
        exact this

theorem prepGo_ok (enc : Value → String) :
    ∀ (ks : List String) (cur acc : Dict), ks.Nodup →
      (∀ k, k ∈ ks → ∃ m ps, lookup cur k = some (.list (.str m :: ps)) ∧ m ≠ "batch") →
      ∃ res cur', prepGo enc ks cur acc = .ok (res, cur') ∧
        ∀ k m ps, k ∈ ks → lookup cur k = some (.list (.str m :: ps)) →
          lookup res k = some (.str (m ++ "?" ++ encParams enc ps)) ∧
          lookup cur' k = some (.list ps) := by
  intro ks
  induction ks with
  | nil =>
    intro cur acc _ _
    exact ⟨acc, cur, rfl, fun k m ps hk _ => absurd hk (List.not_mem_nil k)⟩
  | cons hd tl ih =>
    intro cur acc hnd hwf
    have hhdtl : hd ∉ tl := (List.nodup_cons.mp hnd).1
    have hndtl : tl.Nodup := (List.nodup_cons.mp hnd).2
    obtain ⟨m, ps, hlook, hm⟩ := hwf hd (List.mem_cons_self hd tl)
    have hpe := prepEntry_ok_of_shape enc m ps hm
    have hwf' : ∀ k, k ∈ tl →
        ∃ m' ps', lookup (dictSet cur hd (.list ps)) k = some (.list (.str m' :: ps')) ∧
          m' ≠ "batch" := by
      intro k hk
      have hne : ¬ hd = k := fun he => hhdtl (he ▸ hk)
      rw [lookup_dictSet, if_neg hne]
      exact hwf k (List.mem_cons_of_mem hd hk)
    obtain ⟨res, cur', hrun, hprop⟩ :=
      ih (dictSet cur hd (.list ps))
        (dictSet acc hd (.str (m ++ "?" ++ encParams enc ps))) hndtl hwf'
    refine ⟨res, cur', ?_, ?_⟩
    · rw [prepGo, hlook]
      dsimp only
      rw [hpe]
      dsimp only
      exact hrun
    · intro k m' ps' hk hlk
      rcases List.mem_cons.mp hk with hke | hktl
      · subst hke
        rw [hlook] at hlk
        have hmv : Value.list (.str m :: ps) = .list (.str m' :: ps') := by
          injection hlk
        have hmm : m = m' ∧ ps = ps' := by
          have := Value.list.inj hmv
          have h2 := List.cons.inj this
          exact ⟨Value.str.inj h2.1, h2.2⟩
        obtain ⟨hm1, hm2⟩ := hmm
        subst hm1; subst hm2
        have hfr := prepGo_frame enc tl _ _ res cur' hrun k hhdtl
        constructor
        · rw [hfr.1, lookup_dictSet, if_pos rfl]
        · rw [hfr.2, lookup_dictSet, if_pos rfl]
      · have hne : ¬ hd = k := fun he => hhdtl (he ▸ hktl)
        have hlk' : lookup (dictSet cur hd (.list ps)) k = some (.list (.str m' :: ps')) := by
          rw [lookup_dictSet, if_neg hne]; exact hlk
        exact hprop k m' ps' hktl hlk'

/-- A per-id value `prepare_batch` must reject: not a list, or a
sub-call whose leading method name is `batch`. -/
def invalidCmdEntry (v : Value) : Prop :=
  (∀ l, v ≠ .list l) ∨ ∃ ps, v = .list (.str "batch" :: ps)

theorem prepEntry_err_of_invalid (enc : Value → String) (v : Value)
    (h : invalidCmdEntry v) : ∃ e, prepEntry enc v = .error e := by
  rcases h with hnl | ⟨ps, hps⟩
  · match v with
    | .str s => exact ⟨_, rfl⟩
    | .int n => exact ⟨_, rfl⟩
    | .bool b => exact ⟨_, rfl⟩
    | .dict d => exact ⟨_, rfl⟩
    | .list l => exact absurd rfl (hnl l)
  · subst hps
    exact ⟨.exn "Batch call cannot contain batch methods", by simp [prepEntry]⟩

theorem prepGo_error (enc : Value → String) :
    ∀ (ks : List String) (cur acc : Dict), ks.Nodup →
      (∃ k, k ∈ ks ∧ ∃ v, lookup cur k = some v ∧ invalidCmdEntry v) →
      ∃ e, prepGo enc ks cur acc = .error e := by
  intro ks
  induction ks with
  | nil =>
    intro cur acc _ hbad
    obtain ⟨k, hk, _⟩ := hbad
    exact absurd hk (List.not_mem_nil k)
  | cons hd tl ih =>
    intro cur acc hnd hbad
    have hhdtl : hd ∉ tl := (List.nodup_cons.mp hnd).1
    have hndtl : tl.Nodup := (List.nodup_cons.mp hnd).2
    cases hlook : lookup cur hd with
    | none =>
      refine ⟨.keyError hd, ?_⟩
      rw [prepGo, hlook]
    | some v =>
      cases hpe : prepEntry enc v with
      | error e =>
        refine ⟨e, ?_⟩
        rw [prepGo, hlook]
        dsimp only
        rw [hpe]
      | ok p =>
        obtain ⟨s, v'⟩ := p
        obtain ⟨m, ps, hv, hm, _, hv'⟩ := prepEntry_ok_shape enc v s v' hpe
        obtain ⟨k, hk, w, hlw, hinv⟩ := hbad
        have hktl : k ∈ tl := by
          rcases List.mem_cons.mp hk with hke | hktl
          · subst hke
            rw [hlook] at hlw
            have hwv : w = v := by
              injection hlw with hvw
              exact hvw.symm
            subst hwv
            subst hv
            rcases hinv with hnl | ⟨ps', hps'⟩
            · exact absurd rfl (hnl (.str m :: ps))
            · have := Value.list.inj hps'
              have h2 := List.cons.inj this
              exact absurd (Value.str.inj h2.1) hm
          · exact hktl
        have hne : ¬ hd = k := fun he => hhdtl (he ▸ hktl)
        obtain ⟨e, he⟩ := ih (dictSet cur hd v') (dictSet acc hd (.str s)) hndtl
          ⟨k, hktl, w, by rw [lookup_dictSet, if_neg hne]; exact hlw, hinv⟩
        refine ⟨e, ?_⟩
        rw [prepGo, hlook]
        dsimp only
        rw [hpe]
        dsimp only
        exact he

/-! ### sortedKeys lemmas -/

theorem sortedKeys_perm (d : Dict) : List.Perm (sortedKeys d) (keys d) :=
  @List.perm_insertionSort String (· ≤ ·) strLeDec (keys d)

theorem mem_sortedKeys_iff (d : Dict) (k : String) :
    k ∈ sortedKeys d ↔ k ∈ keys d :=
  (sortedKeys_perm d).mem_iff

theorem sortedKeys_nodup (d : Dict) (h : (keys d).Nodup) : (sortedKeys d).Nodup :=
  ((sortedKeys_perm d).nodup_iff).mpr h

theorem sortedKeys_eq_of_lookup_eq (d1 d2 : Dict)
    (hnd1 : (keys d1).Nodup) (hnd2 : (keys d2).Nodup)
    (h : ∀ k, lookup d1 k = lookup d2 k) : sortedKeys d1 = sortedKeys d2 := by
  have hmem : ∀ k, k ∈ keys d1 ↔ k ∈ keys d2 := by
    intro k
    rw [← lookup_isSome_iff_mem_keys, ← lookup_isSome_iff_mem_keys, h k]
  have hperm : List.Perm (keys d1) (keys d2) := (List.perm_ext_iff_of_nodup hnd1 hnd2).mpr hmem
  have hperm2 : List.Perm (sortedKeys d1) (sortedKeys d2) :=
    ((sortedKeys_perm d1).trans hperm).trans (sortedKeys_perm d2).symm
  exact List.eq_of_perm_of_sorted hperm2
    (@List.sorted_insertionSort String (· ≤ ·) strLeDec _ _ (keys d1))
    (@List.sorted_insertionSort String (· ≤ ·) strLeDec _ _ (keys d2))

theorem encodeCmdGo_congr (enc : Value → String) (d1 d2 : Dict)
    (h : ∀ k, lookup d1 k = lookup d2 k) :
    ∀ ks, encodeCmdGo enc d1 ks = encodeCmdGo enc d2 ks := by
  intro ks
  induction ks with
  | nil => rfl
  | cons i is ih => simp [encodeCmdGo, h i, ih]

/-! ### Claim C4 -/

/-- C4: `encode_cmd` iterates the request ids in ascending sorted key
order, so two command mappings holding the same key-value pairs — in
whatever insertion order — encode to identical strings, for every
encoder: the encoding is a function of the mapping's contents only. -/
theorem claim_C4_encode_cmd_order_invariant (enc : Value → String) (d1 d2 : Dict)
    (hnd1 : (keys d1).Nodup) (hnd2 : (keys d2).Nodup)
    (h : ∀ k, lookup d1 k = lookup d2 k) :
    encode_cmd enc d1 = encode_cmd enc d2 := by
  rw [encode_cmd, encode_cmd, sortedKeys_eq_of_lookup_eq d1 d2 hnd1 hnd2 h]
  exact encodeCmdGo_congr enc d1 d2 h (sortedKeys d2)

/-- Witness for C4 at the spec's example: `{"b": x, "a": y}` and
`{"a": y, "b": x}` encode identically. -/
theorem claim_C4_witness :
    encode_cmd encSample [("b", .int 1), ("a", .int 2)] =
      encode_cmd encSample [("a", .int 2), ("b", .int 1)] :=
  claim_C4_encode_cmd_order_invariant encSample _ _ (by decide) (by decide)
    (fun k => by
      by_cases hb : "b" = k <;> by_cases ha : "a" = k
      · exact absurd (ha.trans hb.symm) (by decide)
      · simp [lookup, hb, ha]
      · simp [lookup, hb, ha]
      · simp [lookup, hb, ha])

/-! ### Claim C9 -/

/-- C9: a JSON-decode failure returns `{'error': 'Error on decode api
response [<raw text>]'}`; a timeout returns `{'error': 'Timeout waiting
expired [<timeout> sec]'}` with the configured timeout value; a
connection failure returns `{'error': 'Max retries exceeded [1]'}` —
each with exactly one HTTP post in the trace and a result independent of
every further scripted response, i.e. with no re-issue of the request. -/
theorem claim_C9_decode_timeout_connection_no_retry (timeout : Nat) (txt : String)
    (rest : List Resp) :
    callDispatch timeout (.jsonErr txt :: rest) =
      ([.post],
       .value (.dict [("error", .str ("Error on decode api response [" ++ txt ++ "]"))])) ∧
    callDispatch timeout (.readTimeout :: rest) =
      ([.post],
       .value (.dict [("error", .str ("Timeout waiting expired [" ++ toString timeout ++ " sec]"))])) ∧
    callDispatch timeout (.connErr :: rest) =
      ([.post], .value (.dict [("error", .str "Max retries exceeded [1]")])) :=
  ⟨rfl, rfl, rfl⟩

/-! ### Claim C3 -/

/-- Counterexample to C3 as stated: the error code `'QUERY'` is none of
`invalid_token`, `NO_AUTH_FOUND`, `expired_token` and is not
`QUERY_LIMIT_EXCEEDED`, yet it does not fall through without a dedicated
recovery action — the rate-limit branch fires (one 2-second sleep, then
the re-issue), because line 108 tests `error_code in
'QUERY_LIMIT_EXCEEDED'`, which on strings is a substring test. -/
theorem claim_C3_counterexample :
    callDispatch 60 [.authFail (.dict [("error", .str "QUERY")]), .ok (.int 1)] =
      ([.post, .sleep2, .post], .value (.int 1)) ∧
    "QUERY" ∉ tokenCodes ∧ "QUERY" ≠ "QUERY_LIMIT_EXCEEDED" :=
  ⟨rfl, by decide, by decide⟩

/-- C3 (amended): on an authentication/token-renewal failure whose
structured error code is `invalid_token`, `NO_AUTH_FOUND` or
`expired_token`, `call` refreshes the tokens and then re-issues the same
call with identical parameters; on a code that is a substring of
`'QUERY_LIMIT_EXCEEDED'` — line 108 uses Python's `in` on a string, so
the exact code but also e.g. `'QUERY'` — it pauses 2 seconds and
re-issues the call exactly once per occurrence; any other string code
falls through without a dedicated recovery action (the call is still
re-issued); and a run of rate-limit failures followed by a success
returns the successful result, one pause-and-retry per occurrence. -/
theorem claim_C3_amended_auth_error_dispatch (timeout : Nat) :
    (∀ (rest : List Resp) (d : Dict) (code : String),
      lookup d "error" = some (.str code) →
      (code ∈ tokenCodes →
        callDispatch timeout (.authFail (.dict d) :: rest) =
          (.post :: .refresh :: (callDispatch timeout rest).1,
           (callDispatch timeout rest).2)) ∧
      (code ∉ tokenCodes → listSub code.data "QUERY_LIMIT_EXCEEDED".data = true →
        callDispatch timeout (.authFail (.dict d) :: rest) =
          (.post :: .sleep2 :: (callDispatch timeout rest).1,
           (callDispatch timeout rest).2)) ∧
      (code ∉ tokenCodes → listSub code.data "QUERY_LIMIT_EXCEEDED".data = false →
        callDispatch timeout (.authFail (.dict d) :: rest) =
          (.post :: (callDispatch timeout rest).1, (callDispatch timeout rest).2))) ∧
    (∀ (n : Nat) (v : Value),
      callDispatch timeout
        (List.replicate n (.authFail (.dict [("error", .str "QUERY_LIMIT_EXCEEDED")])) ++
          [.ok v]) =
      ((List.replicate n [Action.post, Action.sleep2]).join ++ [.post], .value v)) := by
  constructor
  · intro rest d code hlk
    refine ⟨?_, ?_, ?_⟩
    · intro hin
      rw [callDispatch]
      dsimp only
      rw [hlk]
      dsimp only
      rw [if_pos hin]
    · intro hnotin hsub
      rw [callDispatch]
      dsimp only
      rw [hlk]
      dsimp only
      rw [if_neg hnotin, if_pos hsub]
    · intro hnotin hsub
      rw [callDispatch]
      dsimp only
      rw [hlk]
      dsimp only
      rw [if_neg hnotin, if_neg (by simp [hsub])]
  · intro n v
    induction n with
    | zero => rfl
    | succ m ih =>
      rw [List.replicate_succ, List.replicate_succ, List.cons_append, callDispatch]
      dsimp only
      rw [show lookup [("error", Value.str "QUERY_LIMIT_EXCEEDED")] "error" =
        some (.str "QUERY_LIMIT_EXCEEDED") from rfl]
      dsimp only
      rw [if_neg (show ¬ "QUERY_LIMIT_EXCEEDED" ∈ tokenCodes by decide),
        if_pos (show listSub "QUERY_LIMIT_EXCEEDED".data "QUERY_LIMIT_EXCEEDED".data = true
          from by decide)]
      rw [ih]
      simp

/-- Witness for C3 (amended): an `expired_token` failure followed by a
success refreshes then re-issues, returning the success. -/
theorem claim_C3_witness :
    callDispatch 60 [.authFail (.dict [("error", .str "expired_token")]), .ok (.int 7)] =
      ([.post, .refresh, .post], .value (.int 7)) := by
  have h := ((claim_C3_amended_auth_error_dispatch 60).1 [.ok (.int 7)]
    [("error", .str "expired_token")] "expired_token" rfl).1 (by decide)
  exact h.trans rfl

/-! ### Claims C6, C7, C10 -/

/-- On a well-formed command mapping — every per-id value a nonempty
list headed by a method-name string other than `batch` — `prepare_batch`
succeeds, records `"<method>?<encoded params>&..."` per id, and leaves
the caller's per-id lists beheaded. -/
theorem prepare_batch_ok (enc : Value → String) (d : Dict)
    (hnd : (keys d).Nodup)
    (hwf : ∀ k v, lookup d k = some v →
      ∃ m ps, v = .list (.str m :: ps) ∧ m ≠ "batch") :
    ∃ res cur', prepare_batch enc (.dict d) = .ok (res, cur') ∧
      ∀ k m ps, lookup d k = some (.list (.str m :: ps)) →
        lookup res k = some (.str (m ++ "?" ++ encParams enc ps)) ∧
        lookup cur' k = some (.list ps) := by
  have hpre : ∀ k, k ∈ sortedKeys d →
      ∃ m ps, lookup d k = some (.list (.str m :: ps)) ∧ m ≠ "batch" := by
    intro k hk
    have hmem : k ∈ keys d := (mem_sortedKeys_iff d k).mp hk
    have hsome : (lookup d k).isSome = true := (lookup_isSome_iff_mem_keys d k).mpr hmem
    cases hv : lookup d k with
    | none => rw [hv] at hsome; cases hsome
    | some v =>
      obtain ⟨m, ps, hshape, hm⟩ := hwf k v hv
      exact ⟨m, ps, by rw [hshape], hm⟩
  obtain ⟨res, cur', hrun, hprop⟩ :=
    prepGo_ok enc (sortedKeys d) d [] (sortedKeys_nodup d hnd) hpre
  refine ⟨res, cur', hrun, ?_⟩
  intro k m ps hlk
  have hk : k ∈ sortedKeys d := by
    rw [mem_sortedKeys_iff, ← lookup_isSome_iff_mem_keys, hlk]; rfl
  exact hprop k m ps hk hlk

/-- The spec's example input is well-formed. -/
theorem dDemo_wf : ∀ k v, lookup dDemo k = some v →
    ∃ m ps, v = .list (.str m :: ps) ∧ m ≠ "batch" := by
  intro k v h
  simp only [dDemo, lookup] at h
  split at h
  · cases h
    exact ⟨"user.get", [.dict [("ID", .int 1)]], rfl, by decide⟩
  · split at h
    · cases h
      exact ⟨"user.get", [.dict [("ID", .int 2)]], rfl, by decide⟩
    · cases h

/-- C6: for every mapping from request ids to lists headed by a
method-name string (not `batch`) followed by parameter mappings,
`prepare_batch` processes the ids in ascending sorted order and records
per id the string `method ++ "?" ++ p₁-encoded ++ "&" ++ ...`, the
parameter mappings encoded in list order, each followed by `&`. -/
theorem claim_C6_prepare_batch_records (enc : Value → String) (d : Dict)
    (hnd : (keys d).Nodup)
    (hwf : ∀ k v, lookup d k = some v →
      ∃ m ps, v = .list (.str m :: ps) ∧ m ≠ "batch") :
    ∃ res cur', prepare_batch enc (.dict d) = .ok (res, cur') ∧
      ∀ k m ps, lookup d k = some (.list (.str m :: ps)) →
        lookup res k = some (.str (m ++ "?" ++ encParams enc ps)) := by
  obtain ⟨res, cur', hok, hprop⟩ := prepare_batch_ok enc d hnd hwf
  exact ⟨res, cur', hok, fun k m ps h => (hprop k m ps h).1⟩

/-- Witness for C6 at the spec's example
`{"a": ["user.get", {"ID": 1}], "b": ["user.get", {"ID": 2}]}`: keys `a`
and `b` each map to a string starting `user.get?`. -/
theorem claim_C6_witness :
    ∃ res cur', prepare_batch encSample (.dict dDemo) = .ok (res, cur') ∧
      lookup res "a" =
        some (.str ("user.get?" ++ encParams encSample [.dict [("ID", .int 1)]])) ∧
      lookup res "b" =
        some (.str ("user.get?" ++ encParams encSample [.dict [("ID", .int 2)]])) := by
  obtain ⟨res, cur', hok, hprop⟩ :=
    claim_C6_prepare_batch_records encSample dDemo (by decide) dDemo_wf
  exact ⟨res, cur', hok,
    hprop "a" "user.get" [.dict [("ID", .int 1)]] rfl,
    hprop "b" "user.get" [.dict [("ID", .int 2)]] rfl⟩

/-- C7: `prepare_batch` raises on a non-mapping input (`Invalid 'cmd'
structure`), and on a mapping in which some per-id value is not a list
or some sub-call's leading method name is `batch`; in each such case the
outcome is an exception, never a prepared command mapping. -/
theorem claim_C7_prepare_batch_rejects (enc : Value → String) :
    (∀ s, prepare_batch enc (.str s) = .error (.exn "Invalid \x27cmd\x27 structure")) ∧
    (∀ n, prepare_batch enc (.int n) = .error (.exn "Invalid \x27cmd\x27 structure")) ∧
    (∀ b, prepare_batch enc (.bool b) = .error (.exn "Invalid \x27cmd\x27 structure")) ∧
    (∀ l, prepare_batch enc (.list l) = .error (.exn "Invalid \x27cmd\x27 structure")) ∧
    (∀ d, (keys d).Nodup →
      (∃ k v, lookup d k = some v ∧ invalidCmdEntry v) →
      ∃ e, prepare_batch enc (.dict d) = .error e) := by
  refine ⟨fun s => rfl, fun n => rfl, fun b => rfl, fun l => rfl, ?_⟩
  intro d hnd hbad
  obtain ⟨k, v, hlk, hinv⟩ := hbad
  apply prepGo_error enc (sortedKeys d) d [] (sortedKeys_nodup d hnd)
  refine ⟨k, ?_, v, hlk, hinv⟩
  rw [mem_sortedKeys_iff, ← lookup_isSome_iff_mem_keys, hlk]
  rfl

/-- Witness for C7: a mapping whose per-id value is the integer `7`
(not a list) is rejected. -/
theorem claim_C7_witness :
    ∃ e, prepare_batch encSample (.dict [("x", .int 7)]) = .error e :=
  (claim_C7_prepare_batch_rejects encSample).2.2.2.2 [("x", .int 7)] (by decide)
    ⟨"x", .int 7, rfl, Or.inl (fun l hl => Value.noConfusion hl)⟩

/-- C10: (a) `prepare_batch` mutates its argument — after a successful
run every per-id list in the caller's mapping has lost its leading
method-name element (`pop(0)`); (b) `call` with method `'batch'` and no
`prepared` marker replaces the caller's `params1['cmd']` with the
prepared mapping and adds `'prepared': True` to the same parameter
group, and a second `call` invocation on the mutated group skips
re-preparation (the step is the identity on it). -/
theorem claim_C10_mutation (enc : Value → String) :
    (∀ (d : Dict), (keys d).Nodup →
      (∀ k v, lookup d k = some v →
        ∃ m ps, v = .list (.str m :: ps) ∧ m ≠ "batch") →
      ∃ res cur', prepare_batch enc (.dict d) = .ok (res, cur') ∧
        ∀ k m ps, lookup d k = some (.list (.str m :: ps)) →
          lookup cur' k = some (.list ps)) ∧
    (∀ (p1 : Dict) (cmdv : Value) (res cur' : Dict),
      lookup p1 "prepared" = none → lookup p1 "cmd" = some cmdv →
      prepare_batch enc cmdv = .ok (res, cur') →
      call_prepare_step enc (.str "batch") p1 =
        .ok (dictSet (dictSet p1 "cmd" (.dict res)) "prepared" (.bool true)) ∧
      lookup (dictSet (dictSet p1 "cmd" (.dict res)) "prepared" (.bool true)) "prepared" =
        some (.bool true) ∧
      lookup (dictSet (dictSet p1 "cmd" (.dict res)) "prepared" (.bool true)) "cmd" =
        some (.dict res) ∧
      call_prepare_step enc (.str "batch")
        (dictSet (dictSet p1 "cmd" (.dict res)) "prepared" (.bool true)) =
        .ok (dictSet (dictSet p1 "cmd" (.dict res)) "prepared" (.bool true))) := by
  constructor
  · intro d hnd hwf
    obtain ⟨res, cur', hok, hprop⟩ := prepare_batch_ok enc d hnd hwf
    exact ⟨res, cur', hok, fun k m ps h => (hprop k m ps h).2⟩
  · intro p1 cmdv res cur' hprep hcmd hpb
    have hlp : lookup (dictSet (dictSet p1 "cmd" (.dict res)) "prepared" (.bool true))
        "prepared" = some (.bool true) := by
      rw [lookup_dictSet, if_pos rfl]
    have hlc : lookup (dictSet (dictSet p1 "cmd" (.dict res)) "prepared" (.bool true))
        "cmd" = some (.dict res) := by
      rw [lookup_dictSet, if_neg (by decide), lookup_dictSet, if_pos rfl]
    refine ⟨?_, hlp, hlc, ?_⟩
    · rw [call_prepare_step]
      rw [if_pos rfl, hprep]
      rw [show (none : Option Value).isNone = true from rfl, if_pos rfl, hcmd]
      dsimp only
      rw [hpb]
    · rw [call_prepare_step]
      rw [if_pos rfl, hlp]
      rfl

/-- Witness for C10 at the spec's example command mapping: the per-id
lists lose `"user.get"`, and the `call` prepare step marks the group. -/
theorem claim_C10_witness :
    (∃ res cur', prepare_batch encSample (.dict dDemo) = .ok (res, cur') ∧
      lookup cur' "a" = some (.list [.dict [("ID", .int 1)]]) ∧
      lookup cur' "b" = some (.list [.dict [("ID", .int 2)]])) ∧
    (∃ res cur', prepare_batch encSample (.dict dDemo) = .ok (res, cur') ∧
      call_prepare_step encSample (.str "batch") [("halt", .int 0), ("cmd", .dict dDemo)] =
        .ok (dictSet (dictSet [("halt", .int 0), ("cmd", .dict dDemo)] "cmd" (.dict res))
          "prepared" (.bool true))) := by
  have h := claim_C10_mutation encSample
  obtain ⟨res, cur', hok, hmut⟩ := h.1 dDemo (by decide) dDemo_wf
  constructor
  · exact ⟨res, cur', hok,
      hmut "a" "user.get" [.dict [("ID", .int 1)]] rfl,
      hmut "b" "user.get" [.dict [("ID", .int 2)]] rfl⟩
  · refine ⟨res, cur', hok, ?_⟩
    exact (h.2 [("halt", .int 0), ("cmd", .dict dDemo)] (.dict dDemo) res cur'
      rfl rfl hok).1

/-! ### Claim C8 -/

/-- C8: constructing a client fails with the `ValueError` iff the access
token, the refresh token and the authorization code are all absent
(Python-falsy: `None` or the empty string); when at least one is
present, construction succeeds and stores the given domain and
credential fields unchanged. -/
theorem claim_C8_init_validation (domain : String) (a r : Option String)
    (cid csec : String) (c : Option String) (cu : Option String) :
    ((∃ e, bitrix24_init domain a r cid csec c cu = .error e) ↔
      (pyFalsyStrOpt a && pyFalsyStrOpt r && pyFalsyStrOpt c) = true) ∧
    (∀ cl, bitrix24_init domain a r cid csec c cu = .ok cl →
      cl.domain = domain ∧ cl.access_token = a ∧ cl.refresh_token = r ∧
      cl.client_id = cid ∧ cl.client_secret = csec ∧ cl.code = c) := by
  constructor
  · constructor
    · rintro ⟨e, he⟩
      by_cases h : (pyFalsyStrOpt a && pyFalsyStrOpt r && pyFalsyStrOpt c) = true
      · exact h
      · rw [bitrix24_init, if_neg h] at he; cases he
    · intro h
      exact ⟨_, by rw [bitrix24_init, if_pos h]⟩
  · intro cl hcl
    by_cases h : (pyFalsyStrOpt a && pyFalsyStrOpt r && pyFalsyStrOpt c) = true
    · rw [bitrix24_init, if_pos h] at hcl; cases hcl
    · rw [bitrix24_init, if_neg h] at hcl
      injection hcl with h2
      subst h2
      exact ⟨rfl, rfl, rfl, rfl, rfl, rfl⟩

/-- Witness for C8: with an access token present construction succeeds
and stores the fields. -/
theorem claim_C8_witness :
    ∃ cl, bitrix24_init "dom" (some "tok") none "id" "sec" none none = .ok cl ∧
      cl.domain = "dom" ∧ cl.access_token = some "tok" := by
  have h := claim_C8_init_validation "dom" (some "tok") none "id" "sec" none none
  refine ⟨{ domain := "dom", access_token := some "tok", refresh_token := none,
            client_id := "id", client_secret := "sec", code := none,
            oauth_url := "https://oauth.bitrix.info/oauth/token/" }, rfl, ?_, ?_⟩
  · exact (h.2 _ rfl).1
  · exact (h.2 _ rfl).2.1

/-! ### Claim C5 -/

/-- Counterexample to C5 as stated: `batch` invoked with a mapping that
has a `cmd` key but no `halt` key does NOT raise — it returns the result
mapping `{'error': 'Invalid batch structure'}` (and issues no underlying
calls), exactly the error-keyed result shape the claim rules out. -/
theorem claim_C5_counterexample :
    batch encSample emptyOracle (.dict [("cmd", .dict [])]) =
      ([], .ok (.dict [("error", .str "Invalid batch structure")])) := rfl

/-- C5 (amended): `call`'s validation of a malformed method name (empty
string, or not a string at all) raises immediately, and `prepare_batch`
raises on a non-mapping input; but `batch` with an input missing `halt`
or `cmd` RETURNS the result mapping `{'error': 'Invalid batch
structure'}` — with no underlying call issued — rather than raising. -/
theorem claim_C5_amended_validation (oracle : Nat → Value) (enc : Value → String)
    (d : Dict) (h : lookup d "halt" = none ∨ lookup d "cmd" = none) :
    batch enc oracle (.dict d) =
      ([], .ok (.dict [("error", .str "Invalid batch structure")])) ∧
    call_method_check (.str "") = .error (.exn "Empty Method") ∧
    (∀ n, call_method_check (.int n) = .error (.exn "Empty Method")) ∧
    (∀ s, prepare_batch enc (.str s) = .error (.exn "Invalid \x27cmd\x27 structure")) := by
  refine ⟨?_, rfl, fun n => rfl, fun s => rfl⟩
  rw [batch]
  have hcond : (lookup d "halt").isNone = true ∨ (lookup d "cmd").isNone = true := by
    rcases h with h1 | h1
    · exact Or.inl (by rw [h1]; rfl)
    · exact Or.inr (by rw [h1]; rfl)
  rw [if_pos hcond]

/-- Witness for C5 (amended) at the counterexample's input. -/
theorem claim_C5_witness :
    batch encSample emptyOracle (.dict [("cmd", .dict [])]) =
      ([], .ok (.dict [("error", .str "Invalid batch structure")])) ∧
    call_method_check (.str "") = .error (.exn "Empty Method") :=
  have h := claim_C5_amended_validation emptyOracle encSample
    [("cmd", .dict [])] (Or.inl rfl)
  ⟨h.1, h.2.1⟩

/-! ### Claim C1 -/

/-- Counterexample to C1 as stated: a `batch` run over 50 request ids,
each a valid sub-call `["user.get"]` — so each flush's in-call
`prepare_batch` step succeeds and the HTTP round-trips happen — flushes
two chunks; the scripted responses collide on the per-id key `X` (first
chunk `v1`, second chunk `v2`), and after the second merge the
cumulative container holds the FIRST chunk's `v1`, not the later chunk's
`v2` — `merge_two_dicts(temp['result'][i], result['result'][i])` runs
`z.update(y)` with the cumulative container as `y`, so the earlier value
wins the collision. -/
theorem claim_C1_counterexample :
    (batch encSample collideOracle (demoParams 50)).2 =
      .ok (.dict [("result", .dict
        [("result_error", .dict []), ("result_total", .dict []),
         ("result", .dict [("X", .str "v1")]), ("result_next", .dict [])])]) ∧
    collideOracle 1 = .dict [("result", .dict [("result", .dict [("X", .str "v2")])])] ∧
    Value.str "v1" ≠ .str "v2" := by
  refine ⟨?_, rfl, ?_⟩
  · rfl
  · intro hv
    injection hv with hs
    exact absurd hs (by decide)

/-- C1 (amended): the merge `batch` performs on a flushed chunk —
`merge_two_dicts(temp['result'][i], result['result'][i])`, the fresh
chunk as `x` and the cumulative container as `y` — is shallow-overwrite
with the CUMULATIVE (earlier) value winning on key collision: after
merging, the mapping holds the earlier value for every colliding key,
and the fresh chunk's value exactly on the keys not previously present. -/
theorem claim_C1_amended_merge_keeps_cumulative (x y : Dict) (hnd : (keys y).Nodup) :
    (∀ k v, lookup y k = some v → lookup (merge_two_dicts x y) k = some v) ∧
    (∀ k, lookup y k = none → lookup (merge_two_dicts x y) k = lookup x k) ∧
    (∀ (acc : Dict) (i : String), x ≠ [] → lookup acc i = some (.dict y) →
      batchMergeLoop acc [(i, .dict x)] =
        .ok (dictSet acc i (.dict (merge_two_dicts x y)))) := by
  refine ⟨fun k v h => lookup_merge_of_mem_right x y hnd k v h,
          fun k h => lookup_merge_of_not_mem_right x y hnd k h, ?_⟩
  intro acc i hx hacc
  rw [batchMergeLoop]
  dsimp only [pyLen]
  rw [if_pos (List.length_pos.mpr hx), hacc]
  rfl

/-- Witness for C1 (amended): merging the fresh chunk `{X: v2}` into the
cumulative `{X: v1}` the way `batch` does keeps `v1`. -/
theorem claim_C1_witness :
    lookup (merge_two_dicts [("X", .str "v2")] [("X", .str "v1")]) "X" =
      some (.str "v1") ∧
    batchMergeLoop [("result", .dict [("X", .str "v1")])]
        [("result", .dict [("X", .str "v2")])] =
      .ok (dictSet [("result", .dict [("X", .str "v1")])] "result"
        (.dict (merge_two_dicts [("X", .str "v2")] [("X", .str "v1")]))) := by
  have h := claim_C1_amended_merge_keeps_cumulative
    [("X", .str "v2")] [("X", .str "v1")] (by decide)
  exact ⟨h.1 "X" (.str "v1") rfl,
    h.2.2 [("result", .dict [("X", .str "v1")])] "result"
      (List.cons_ne_nil _ _) rfl⟩

/-! ### Claim C2 -/

/-- Every chunk the loop flushes holds at most 49 entries: the loop
flushes as soon as the open chunk reaches 49 (and a chunk whose prepare
step raises was still at most 49 when its `call` was invoked). -/
theorem batchLoop_chunk_le (enc : Value → String) (oracle : Nat → Value)
    (cmd : Dict) (total : Nat) :
    ∀ (ks : List String) (count : Nat) (chunk : Dict) (fi : Nat) (acc : Dict),
      chunk.length ≤ 48 →
      ∀ c, c ∈ (batchLoop enc oracle cmd total ks count chunk fi acc).1 →
        c.length ≤ 49 := by
  intro ks
  induction ks with
  | nil =>
    intro count chunk fi acc _ c hc
    simp only [batchLoop, List.not_mem_nil] at hc
  | cons k ks ih =>
    intro count chunk fi acc hlen c hc
    have hlen' : (dictSet chunk k ((lookup cmd k).getD (.int 0))).length ≤ 49 :=
      le_trans (length_dictSet_le chunk k _) (by omega)
    rw [batchLoop] at hc
    dsimp only at hc
    by_cases hcond :
        (dictSet chunk k ((lookup cmd k).getD (.int 0))).length = 49 ∨ count + 1 = total
    · rw [if_pos hcond] at hc
      cases hpb : prepare_batch enc (.dict (dictSet chunk k ((lookup cmd k).getD (.int 0)))) with
      | error e =>
        rw [hpb] at hc
        dsimp only at hc
        rcases List.mem_cons.mp hc with hceq | hcm
        · subst hceq; exact hlen'
        · simp at hcm
      | ok p =>
        rw [hpb] at hc
        dsimp only at hc
        cases hfl : flushChunk (oracle fi) acc with
        | ok acc2 =>
          rw [hfl] at hc
          dsimp only at hc
          rcases List.mem_cons.mp hc with hceq | hcm
          · subst hceq; exact hlen'
          · exact ih (count + 1) [] (fi + 1) acc2 (by simp) c hcm
        | error e =>
          rw [hfl] at hc
          dsimp only at hc
          rcases List.mem_cons.mp hc with hceq | hcm
          · subst hceq; exact hlen'
          · simp at hcm
    · rw [if_neg hcond] at hc
      have hne49 : ¬ (dictSet chunk k ((lookup cmd k).getD (.int 0))).length = 49 :=
        fun he => hcond (Or.inl he)
      exact ih (count + 1) _ fi acc (by omega) c hc

/-- With command values `prepare_batch` accepts (so every flush's
in-call prepare step succeeds) and benign responses (`{'result': {}}`
each flush), the loop visits every id: the flushed chunk sizes follow
`sizesGo`, the flushed chunks' keys concatenate to the walked id list in
order, and the cumulative container comes back unchanged. -/
theorem batchLoop_benign (enc : Value → String) (oracle : Nat → Value)
    (horc : ∀ i, oracle i = .dict [("result", .dict [])]) (cmd : Dict) (total : Nat)
    (hcmdwf : ∀ k v, lookup cmd k = some v → wfCmd v) :
    ∀ (ks : List String) (count : Nat) (chunk : Dict) (fi : Nat) (acc : Dict),
      ks.Nodup → (∀ k, k ∈ ks → k ∉ keys chunk) →
      (∀ k, k ∈ ks → (lookup cmd k).isSome = true) →
      (keys chunk).Nodup →
      (∀ k v, lookup chunk k = some v → wfCmd v) →
      count + ks.length = total → (ks = [] → chunk = []) →
      ((batchLoop enc oracle cmd total ks count chunk fi acc).1.map List.length =
        sizesGo total ks.length count chunk.length ∧
       ((batchLoop enc oracle cmd total ks count chunk fi acc).1.map keys).join =
        keys chunk ++ ks ∧
       (batchLoop enc oracle cmd total ks count chunk fi acc).2 = .ok acc) := by
  intro ks
  induction ks with
  | nil =>
    intro count chunk fi acc _ _ _ _ _ _ hempty
    rw [hempty rfl]
    exact ⟨rfl, rfl, rfl⟩
  | cons k ks ih =>
    intro count chunk fi acc hnd hfresh hks hchunknd hchunkwf hcount hempty
    simp only [List.length_cons] at hcount
    have hkfresh : k ∉ keys chunk := hfresh k (List.mem_cons_self k ks)
    have hlen : (dictSet chunk k ((lookup cmd k).getD (.int 0))).length = chunk.length + 1 :=
      length_dictSet_of_not_mem chunk k _ hkfresh
    have hkeys : keys (dictSet chunk k ((lookup cmd k).getD (.int 0))) = keys chunk ++ [k] :=
      keys_dictSet_of_not_mem chunk k _ hkfresh
    have hnd' : (keys (dictSet chunk k ((lookup cmd k).getD (.int 0)))).Nodup := by
      rw [hkeys]
      simp [List.nodup_append, hchunknd, hkfresh]
    have hwf' : ∀ k2 v,
        lookup (dictSet chunk k ((lookup cmd k).getD (.int 0))) k2 = some v → wfCmd v := by
      intro k2 v hv
      rw [lookup_dictSet] at hv
      by_cases hk2 : k = k2
      · rw [if_pos hk2] at hv
        cases hw : lookup cmd k with
        | none =>
          have hs := hks k (List.mem_cons_self k ks)
          rw [hw] at hs
          cases hs
        | some w =>
          rw [hw] at hv
          simp only [Option.getD_some] at hv
          injection hv with hv2
          exact hv2 ▸ hcmdwf k w hw
      · rw [if_neg hk2] at hv
        exact hchunkwf k2 v hv
    rw [batchLoop]
    dsimp only
    simp only [List.length_cons, sizesGo]
    by_cases hcond :
        (dictSet chunk k ((lookup cmd k).getD (.int 0))).length = 49 ∨ count + 1 = total
    · rw [if_pos hcond]
      obtain ⟨res, cur2, hpb, _⟩ :=
        prepare_batch_ok enc (dictSet chunk k ((lookup cmd k).getD (.int 0))) hnd'
          (fun k2 v hv => hwf' k2 v hv)
      rw [hpb]
      dsimp only
      rw [horc fi]
      rw [show flushChunk (Value.dict [("result", .dict [])]) acc = .ok acc from rfl]
      dsimp only
      obtain ⟨ih1, ih2, ih3⟩ := ih (count + 1) [] (fi + 1) acc
        ((List.nodup_cons.mp hnd).2) (by simp [keys])
        (fun k2 hk2 => hks k2 (List.mem_cons_of_mem k hk2))
        (by simp [keys])
        (fun k2 v hv => by simp [lookup] at hv)
        (by omega) (fun _ => rfl)
      have hcond2 : chunk.length + 1 = 49 ∨ count + 1 = total := by
        rw [hlen] at hcond; exact hcond
      rw [if_pos hcond2]
      refine ⟨?_, ?_, ih3⟩
      · simp only [List.map_cons, hlen, ih1, List.length_nil]
      · simp only [List.map_cons, List.join_cons, hkeys, ih2]
        simp [keys]
    · rw [if_neg hcond]
      have hcond2 : ¬ (chunk.length + 1 = 49 ∨ count + 1 = total) := by
        rw [hlen] at hcond; exact hcond
      rw [if_neg hcond2]
      have hfresh' : ∀ k2, k2 ∈ ks →
          k2 ∉ keys (dictSet chunk k ((lookup cmd k).getD (.int 0))) := by
        intro k2 hk2
        rw [hkeys]
        intro hmem
        rcases List.mem_append.mp hmem with hm | hm
        · exact hfresh k2 (List.mem_cons_of_mem k hk2) hm
        · have : k2 = k := by simpa using hm
          exact (List.nodup_cons.mp hnd).1 (this ▸ hk2)
      obtain ⟨ih1, ih2, ih3⟩ := ih (count + 1)
        (dictSet chunk k ((lookup cmd k).getD (.int 0))) fi acc
        ((List.nodup_cons.mp hnd).2) hfresh'
        (fun k2 hk2 => hks k2 (List.mem_cons_of_mem k hk2))
        hnd' hwf' (by omega)
        (fun hksnil => by
          subst hksnil
          simp only [List.length_nil] at hcount
          exact absurd (Or.inr (by omega)) hcond)
      refine ⟨?_, ?_, ih3⟩
      · rw [ih1, hlen]
      · rw [ih2, hkeys]
        simp

/-- C2: (first part) for every input, encoder and response oracle, each
flushed chunk — one underlying `call('batch', ...)` per chunk — holds at
most 49 sub-calls; (second part) a well-formed input (`halt` and `cmd`
present, command values `prepare_batch` accepts so the in-call prepare
step of each flush succeeds) with exactly 100 request ids issues exactly
3 underlying calls with chunk sizes 49, 49 and 2 in that order, and the
chunks walk the request ids in ascending sorted order (their keys
concatenate to the sorted id list). -/
theorem claim_C2_batch_chunking (enc : Value → String) (oracle : Nat → Value)
    (params : Value) :
    (∀ c, c ∈ (batch enc oracle params).1 → c.length ≤ 49) ∧
    (∀ (d cmd : Dict) (hv : Value),
      params = .dict d → lookup d "halt" = some hv → lookup d "cmd" = some (.dict cmd) →
      (keys cmd).Nodup → cmd.length = 100 →
      (∀ k v, lookup cmd k = some v → wfCmd v) →
      (∀ i, oracle i = .dict [("result", .dict [])]) →
      (batch enc oracle params).1.map List.length = [49, 49, 2] ∧
      ((batch enc oracle params).1.map keys).join = sortedKeys cmd) := by
  constructor
  · intro c hc
    cases params with
    | str s => simp [batch] at hc
    | int n => simp [batch] at hc
    | bool b => simp [batch] at hc
    | list l => simp [batch] at hc
    | dict d =>
      rw [batch] at hc
      by_cases hvalid : (lookup d "halt").isNone = true ∨ (lookup d "cmd").isNone = true
      · rw [if_pos hvalid] at hc; simp at hc
      · rw [if_neg hvalid] at hc
        cases hcv : lookup d "cmd" with
        | none => rw [hcv] at hc; simp at hc
        | some v =>
          rw [hcv] at hc
          cases v with
          | str s => simp at hc
          | int n => simp at hc
          | bool b => simp at hc
          | list l => simp at hc
          | dict cmd =>
            dsimp only at hc
            exact batchLoop_chunk_le enc oracle cmd cmd.length (sortedKeys cmd) 0 [] 0 _
              (by simp) c hc
  · intro d cmd hv hparams hhalt hcmd hnd h100 hcmdwf horc
    subst hparams
    rw [batch]
    rw [if_neg (by rw [hhalt, hcmd]; simp)]
    rw [hcmd]
    dsimp only
    have hL : (sortedKeys cmd).length = 100 := by
      rw [(sortedKeys_perm cmd).length_eq]
      simpa [keys] using h100
    obtain ⟨h1, h2, h3⟩ := batchLoop_benign enc oracle horc cmd cmd.length hcmdwf
      (sortedKeys cmd) 0 [] 0
      [("result_error", .dict []), ("result_total", .dict []),
       ("result", .dict []), ("result_next", .dict [])]
      (sortedKeys_nodup cmd hnd) (by simp [keys])
      (fun k hk =>
        (lookup_isSome_iff_mem_keys cmd k).mpr ((mem_sortedKeys_iff cmd k).mp hk))
      (by simp [keys])
      (fun k v hlk => by simp [lookup] at hlk)
      (by
        rw [Nat.zero_add, (sortedKeys_perm cmd).length_eq]
        simp [keys])
      (fun _ => rfl)
    constructor
    · rw [h1, hL, h100]
      decide
    · rw [h2]
      rfl

theorem lookup_map_const (c : Value) :
    ∀ (l : List String) (k : String) (v : Value),
      lookup (l.map (fun s => (s, c))) k = some v → v = c := by
  intro l
  induction l with
  | nil => intro k v h; cases h
  | cons a l ih =>
    intro k v h
    simp only [List.map_cons, lookup] at h
    split at h
    · injection h with h2; exact h2.symm
    · exact ih k v h

/-- Every value of the sample command mapping is a valid sub-call. -/
theorem demoCmd_wf (n : Nat) :
    ∀ k v, lookup (demoCmd n) k = some v → wfCmd v := by
  intro k v h
  have hc := lookup_map_const (Value.list [Value.str "user.get"]) (demoIds n) k v h
  rw [hc]
  exact ⟨"user.get", [], rfl, by decide⟩

/-- Witness for C2: a concrete batch input with 100 request ids, all
valid sub-calls, and benign responses flushes chunks of sizes 49, 49, 2. -/
theorem claim_C2_witness :
    (∀ c, c ∈ (batch encSample emptyOracle (demoParams 100)).1 → c.length ≤ 49) ∧
    (batch encSample emptyOracle (demoParams 100)).1.map List.length = [49, 49, 2] := by
  have h := claim_C2_batch_chunking encSample emptyOracle (demoParams 100)
  refine ⟨h.1, ?_⟩
  exact (h.2 [("halt", .int 0), ("cmd", .dict (demoCmd 100))] (demoCmd 100) (.int 0)
    rfl rfl rfl (by decide) rfl (demoCmd_wf 100) (fun i => rfl)).1

end Bitrix24
